import Mathlib

/-!
Verification of the pipeline-step execution mechanism of the dtlpy SDK:
the two concrete `PipelineStep` kinds (`AnnotationsGetBatchStep` in
`dtlpy/pipelines/steps/annotations_get_batch_step.py` and `ItemsGetStep` in
`dtlpy/pipelines/steps/items_get_step.py`), shallowly embedded.

Python dictionaries are modelled as insertion-ordered association lists
(`Ctx`); values are modelled by the inductive `Val`, with the external
collaborator results (`item.annotations.list()`, `dataset.items.get(...)`)
represented symbolically.  `execute` returns the final state of the pipeline
dictionary, the final state of the step object's own fields (Python mutates
`self.kwargs` through the alias `kwargs = self.kwargs`), the trace of
collaborator invocations, and the raised exception, if any.
-/

set_option autoImplicit false

namespace Dtlpy

mutual

/-- A Python value appearing in the pipeline context.  Entities and
collaborator results are symbolic: `annotationsList v` stands for the result
of `v.annotations.list()` and `itemsGet d kw` for `d.items.get(**kw)`.
(`ValList` and `KwList` are the element lists of Python lists/tuples and the
keyword-argument dicts nested inside values; the mutual formulation keeps
equality decidable.) -/
inductive Val where
  /-- Python `None`. -/
  | none : Val
  | str : String → Val
  | nat : Nat → Val
  /-- An `Item` entity, identified by an id. -/
  | item : Nat → Val
  /-- A `Dataset` entity, identified by an id. -/
  | dataset : Nat → Val
  /-- A Python list. -/
  | listV : ValList → Val
  /-- A Python tuple. -/
  | tupleV : ValList → Val
  /-- Symbolic result of `v.annotations.list()`. -/
  | annotationsList : Val → Val
  /-- Symbolic result of `d.items.get(**kw)`. -/
  | itemsGet : Val → KwList → Val

/-- The elements of a Python list or tuple value. -/
inductive ValList where
  | nil : ValList
  | cons : Val → ValList → ValList

/-- A keyword-argument dict nested inside a value. -/
inductive KwList where
  | nil : KwList
  | cons : String → Val → KwList → KwList

end

deriving instance DecidableEq for Val
deriving instance Repr for Val

/-- Convert a Lean list of values into a `ValList`. -/
def ValList.ofList : List Val → ValList
  | [] => .nil
  | v :: vs => .cons v (ofList vs)

/-- The elements of a `ValList`, as a Lean list. -/
def ValList.toList : ValList → List Val
  | .nil => []
  | .cons v vs => v :: toList vs

/-- Convert a keyword-argument association list into a `KwList`. -/
def KwList.ofKw : List (String × Val) → KwList
  | [] => .nil
  | (k, v) :: rest => .cons k v (ofKw rest)

/-- A Python list value with the given elements. -/
def Val.list (xs : List Val) : Val :=
  .listV (ValList.ofList xs)

/-- A Python `dict` with string keys, as an insertion-ordered association
list whose keys are pairwise distinct (the `insert` below preserves
distinctness). -/
abbrev Ctx := List (String × Val)

namespace Ctx

/-- Dictionary lookup: value of the first (in a well-formed dict: only)
entry with the given key. -/
def find? : Ctx → String → Option Val
  | [], _ => Option.none
  | (k, v) :: rest, key => if k = key then some v else find? rest key

/-- Python `key in dict`. -/
def containsKey (c : Ctx) (k : String) : Bool :=
  (c.find? k).isSome

/-- Python `dict[key] = value`: update the entry in place when the key is
present, append a new entry otherwise. -/
def insert : Ctx → String → Val → Ctx
  | [], key, v => [(key, v)]
  | (k, w) :: rest, key, v =>
      if k = key then (k, v) :: rest else (k, w) :: insert rest key v

/-- Python `dict.get(key)`: the value when present, `None` otherwise. -/
def pythonGet (c : Ctx) (k : String) : Val :=
  (c.find? k).getD Val.none

/-- The keys of the dictionary, in order. -/
def keysList (c : Ctx) : List String :=
  c.map Prod.fst

/-- Apply a sequence of `insert`s (Python: a sequence of `d[k] = v`
assignments), left to right. -/
def applyPairs (ps : List (String × Val)) (c : Ctx) : Ctx :=
  ps.foldl (fun c p => insert c p.1 p.2) c

end Ctx

/-- One entry of a step's `inputs` list: the Python dict
`{'name': …, 'from': …, 'by': …, 'type': …}`.  The `from` key is called
`fromKey` here (`from` is a Lean keyword), and `by` is `byKey`. -/
structure InputSpec where
  name : String
  fromKey : String
  byKey : String
  type : String
  deriving DecidableEq, Repr

/-- One entry of a step's `outputs` list: the dict `{'name': …, 'type': …}`. -/
structure OutputSpec where
  name : String
  type : String
  deriving DecidableEq, Repr

/-- The two concrete step classes under `dtlpy/pipelines/steps/`. -/
inductive StepKind where
  | annotationsGetBatch
  | itemsGet
  deriving DecidableEq, Repr

/-- A step descriptor dict, as accepted by the constructors
(`step_dict` argument). -/
structure StepDict where
  inputs : List InputSpec
  kwargs : List (String × Val)
  args : List Val
  outputs : List OutputSpec
  deriving DecidableEq, Repr

/-- A constructed step object: its class (`kind`), its `name` field and the
four descriptor fields set by `__init__`. -/
structure PipelineStep where
  name : String
  kind : StepKind
  inputs : List InputSpec
  kwargs : List (String × Val)
  args : List Val
  outputs : List OutputSpec
  deriving DecidableEq, Repr

/-- `AnnotationsGetBatchStep.__init__`: with a `step_dict` adopt its fields
verbatim, otherwise the built-in default shape. -/
def AnnotationsGetBatchStep (step_dict : Option StepDict) : PipelineStep :=
  match step_dict with
  | some d => ⟨"AnnotationsGetBatch", .annotationsGetBatch, d.inputs, d.kwargs, d.args, d.outputs⟩
  | Option.none =>
      ⟨"AnnotationsGetBatch", .annotationsGetBatch,
        [⟨"items", "items", "ref", "object"⟩], [], [],
        [⟨"annotations", "list"⟩]⟩

/-- `ItemsGetStep.__init__`: with a `step_dict` adopt its fields verbatim,
otherwise the built-in default shape. -/
def ItemsGetStep (step_dict : Option StepDict) : PipelineStep :=
  match step_dict with
  | some d => ⟨"ItemsGet", .itemsGet, d.inputs, d.kwargs, d.args, d.outputs⟩
  | Option.none =>
      ⟨"ItemsGet", .itemsGet,
        [⟨"dataset", "dataset", "ref", "object"⟩,
         ⟨"item_id", "item_id", "ref", "string"⟩], [], [],
        [⟨"item", "object"⟩]⟩

/-- The reserved primary-object input name of each step kind. -/
def primaryName : StepKind → String
  | .annotationsGetBatch => "items"
  | .itemsGet => "dataset"

/-- Exceptions raised by `execute`. -/
inductive Err where
  /-- Python `AssertionError`, carrying the assertion message. -/
  | assertionError : String → Err
  /-- Python `ValueError`, carrying the message. -/
  | valueError : String → Err
  /-- Python `IndexError` from `outputs[i_output]` (tuple index out of range). -/
  | indexError : Err
  /-- Python `TypeError` (iterating a non-iterable value). -/
  | typeError : String → Err
  deriving DecidableEq, Repr

/-- The assertion message of the input-presence check:
`'[ERROR] input argument for step is not in pipeline dictionary. arg: %s'`. -/
def missingInputMsg (k : String) : String :=
  "[ERROR] input argument for step is not in pipeline dictionary. arg: " ++ k

/-- The `ValueError` message of the primary-input uniqueness check. -/
def primaryMissingMsg : StepKind → String
  | .annotationsGetBatch => "\"items\" is missing from context"
  | .itemsGet => "\"dataset\" is missing from context"

/-- A collaborator invocation made during `execute`, recording the object it
was called on and the keyword arguments it was passed. -/
inductive OpCall where
  /-- `item.annotations.list()` called on `item` with the given kwargs. -/
  | annotationsList : Val → List (String × Val) → OpCall
  /-- `dataset.items.get(**kwargs)` called on `dataset`. -/
  | itemsGet : Val → List (String × Val) → OpCall
  deriving DecidableEq, Repr

/-- The keyword arguments a collaborator invocation received. -/
def OpCall.callKwargs : OpCall → List (String × Val)
  | .annotationsList _ kw => kw
  | .itemsGet _ kw => kw

/-- The observable outcome of one `execute(pipeline_dict)` call: the final
state of the pipeline dictionary (mutated in place up to the point of a
possible exception), the final state of the step object's fields
(`self.kwargs` is mutated through the alias `kwargs = self.kwargs`), the
trace of collaborator invocations and the exception, if one was raised
(`Option.none` means the call returned normally). -/
structure ExecResult where
  ctx : Ctx
  step : PipelineStep
  calls : List OpCall
  err : Option Err
  deriving Repr

/-- The input-presence assertion loop: the first declared input whose `from`
key is absent from the pipeline dictionary, if any. -/
def firstMissing (inputs : List InputSpec) (ctx : Ctx) : Option InputSpec :=
  inputs.find? (fun ia => !(ctx.containsKey ia.fromKey))

/-- `[input_arg['from'] for input_arg in self.inputs if input_arg['name'] == primary]`. -/
def primaryFroms (s : PipelineStep) : List String :=
  (s.inputs.filter (fun ia => ia.name = primaryName s.kind)).map (·.fromKey)

/-- The kwargs-collection loop: starting from the step's own `kwargs` dict
(aliased, so these updates persist on the step object), copy
`pipeline_dict[input_arg['from']]` into `kwargs[input_arg['name']]` for every
declared input whose name is not the primary name. -/
def collectKwargs (kind : StepKind) (inputs : List InputSpec)
    (kwargs0 : List (String × Val)) (ctx : Ctx) : List (String × Val) :=
  inputs.foldl
    (fun kw ia =>
      if ia.name = primaryName kind then kw
      else Ctx.insert kw ia.name (Ctx.pythonGet ctx ia.fromKey))
    kwargs0

/-- Python iteration over a value, as far as the step code needs it: lists
and tuples yield their elements; iterating any other modelled value is
treated as the `TypeError` Python raises on non-iterables. -/
def pyIter : Val → Option (List Val)
  | .listV xs => some xs.toList
  | .tupleV xs => some xs.toList
  | _ => Option.none

/-- Whether a value is a Python tuple (`isinstance(outputs, tuple)`). -/
def Val.isTuple : Val → Bool
  | .tupleV _ => true
  | _ => false

/-- The `# Run step` section of each `execute`: the underlying collaborator
operation.  `AnnotationsGetBatchStep` iterates the primary object and calls
`item.annotations.list()` on each element, passing no keyword arguments at
all; `ItemsGetStep` calls `dataset.items.get(**kwargs)` with the collected
keyword arguments.  Returns the produced `outputs` value and the invocation
trace. -/
def runOp (kind : StepKind) (primary : Val) (kwargs : List (String × Val)) :
    Except Err (Val × List OpCall) :=
  match kind with
  | .annotationsGetBatch =>
      match pyIter primary with
      | Option.none => .error (.typeError "object is not iterable")
      | some items =>
          .ok (Val.list (items.map Val.annotationsList),
               items.map (fun it => OpCall.annotationsList it []))
  | .itemsGet =>
      .ok (.itemsGet primary (KwList.ofKw kwargs), [OpCall.itemsGet primary kwargs])

/-- `if not isinstance(outputs, tuple): outputs = (outputs,)` — the tuple of
produced outputs, as a list. -/
def toTuple : Val → List Val
  | .tupleV xs => xs.toList
  | v => [v]

/-- The output-writing loop
`for i_output, output_arg in enumerate(self.outputs): pipeline_dict[output_arg['name']] = outputs[i_output]`:
walks the declared outputs and the produced tuple in parallel, writing each
element into the dictionary; `outputs[i_output]` past the end of the tuple
raises `IndexError`, leaving the writes already made in place. -/
def writeOutputs : List OutputSpec → List Val → Ctx → Ctx × Option Err
  | [], _, ctx => (ctx, Option.none)
  | _ :: _, [], ctx => (ctx, some Err.indexError)
  | o :: rest, v :: vs, ctx => writeOutputs rest vs (Ctx.insert ctx o.name v)

/-- `execute(self, pipeline_dict)`, common to both step kinds (the kinds
differ only in the reserved primary name, the `ValueError` message and the
underlying operation):
1. assert every declared input's `from` key is in the dictionary;
2. collect the `from` keys of the inputs named as the primary name and
   require exactly one;
3. read the primary object with `pipeline_dict.get(...)`;
4. collect the remaining inputs into the step's own `kwargs` dict;
5. run the underlying operation;
6. wrap a non-tuple result into a one-element tuple;
7. write `outputs[i]` into `pipeline_dict[output_arg['name']]` for each
   declared output, in order, and return the dictionary. -/
def execute (s : PipelineStep) (pipeline_dict : Ctx) : ExecResult :=
  match firstMissing s.inputs pipeline_dict with
  | some ia =>
      ⟨pipeline_dict, s, [], some (.assertionError (missingInputMsg ia.fromKey))⟩
  | Option.none =>
      match primaryFroms s with
      | [f] =>
          let primary := Ctx.pythonGet pipeline_dict f
          let kwargs := collectKwargs s.kind s.inputs s.kwargs pipeline_dict
          let s' := { s with kwargs := kwargs }
          match runOp s.kind primary kwargs with
          | .error e => ⟨pipeline_dict, s', [], some e⟩
          | .ok (outputs, calls) =>
              let tup := toTuple outputs
              let (ctx', err) := writeOutputs s.outputs tup pipeline_dict
              ⟨ctx', s', calls, err⟩
      | _ => ⟨pipeline_dict, s, [], some (.valueError (primaryMissingMsg s.kind))⟩

/-! ### Dictionary lemmas -/

namespace Ctx

theorem find?_insert (c : Ctx) (k : String) (v : Val) (x : String) :
    find? (insert c k v) x = if x = k then some v else find? c x := by
  induction c with
  | nil =>
      simp only [insert, find?]
      split_ifs <;> simp_all
  | cons p rest ih =>
      obtain ⟨k', w⟩ := p
      simp only [insert]
      by_cases hk : k' = k
      · rw [if_pos hk]
        simp only [find?]
        by_cases hx : k' = x
        · rw [if_pos hx, if_pos (hx.symm.trans hk)]
        · rw [if_neg hx, if_neg (fun h => hx (hk.trans h.symm)), if_neg hx]
      · rw [if_neg hk]
        simp only [find?, ih]
        by_cases hx : k' = x
        · rw [if_pos hx, if_neg (show ¬ x = k from fun h => hk (hx.trans h)), if_pos hx]
        · rw [if_neg hx, if_neg hx]

theorem find?_eq_none_of_not_mem_keys {c : Ctx} {x : String}
    (h : x ∉ keysList c) : find? c x = Option.none := by
  induction c with
  | nil => rfl
  | cons p rest ih =>
      obtain ⟨k, v⟩ := p
      simp only [keysList, List.map_cons, List.mem_cons, not_or] at h
      simp only [find?]
      rw [if_neg (fun he => h.1 he.symm), ih (by simpa [keysList] using h.2)]

theorem containsKey_eq_mem_keys (c : Ctx) (x : String) :
    containsKey c x = true ↔ x ∈ keysList c := by
  induction c with
  | nil => simp [containsKey, find?, keysList]
  | cons p rest ih =>
      obtain ⟨k, v⟩ := p
      simp only [containsKey, find?] at ih ⊢
      by_cases hk : k = x
      · simp [hk, keysList]
      · simp only [if_neg hk, keysList, List.map_cons, List.mem_cons]
        rw [show List.map Prod.fst rest = keysList rest from rfl, ← ih]
        constructor
        · exact fun h => Or.inr h
        · rintro (h | h)
          · exact absurd h.symm hk
          · exact h

theorem keysList_insert_of_contains {c : Ctx} {k : String} (v : Val)
    (h : containsKey c k = true) : keysList (insert c k v) = keysList c := by
  induction c with
  | nil => simp [containsKey, find?] at h
  | cons p rest ih =>
      obtain ⟨k', w⟩ := p
      simp only [insert]
      split_ifs with hk
      · simp [keysList]
      · simp only [containsKey, find?, if_neg hk] at h
        have := ih h
        simp only [keysList, List.map_cons] at this ⊢
        rw [this]

theorem keysList_insert_of_not_contains {c : Ctx} {k : String} (v : Val)
    (h : containsKey c k = false) : keysList (insert c k v) = keysList c ++ [k] := by
  induction c with
  | nil => simp [insert, keysList]
  | cons p rest ih =>
      obtain ⟨k', w⟩ := p
      simp only [insert]
      split_ifs with hk
      · simp [containsKey, find?, if_pos hk] at h
      · simp only [containsKey, find?, if_neg hk] at h
        have := ih h
        simp only [keysList, List.map_cons] at this ⊢
        rw [this, List.cons_append]

theorem insert_self {c : Ctx} {k : String} {v : Val}
    (h : find? c k = some v) : insert c k v = c := by
  induction c with
  | nil => simp [find?] at h
  | cons p rest ih =>
      obtain ⟨k', w⟩ := p
      simp only [insert]
      split_ifs with hk
      · simp only [find?, if_pos hk] at h
        injection h with h2
        rw [h2]
      · simp only [find?, if_neg hk] at h
        simp [ih h]

theorem nodup_keys_insert {c : Ctx} (k : String) (v : Val)
    (h : (keysList c).Nodup) : (keysList (insert c k v)).Nodup := by
  by_cases hc : containsKey c k = true
  · rw [keysList_insert_of_contains v hc]; exact h
  · rw [keysList_insert_of_not_contains v (by simpa using hc)]
    refine List.Nodup.append h (List.nodup_singleton k) ?_
    intro x hx hk'
    simp only [List.mem_singleton] at hk'
    subst hk'
    exact hc ((containsKey_eq_mem_keys c x).mpr hx)

/-- The value the assignment sequence `ps` leaves at key `x`: the value of
the last pair with that key, if any. -/
def lastVal : List (String × Val) → String → Option Val
  | [], _ => Option.none
  | (k, v) :: rest, x =>
      match lastVal rest x with
      | some w => some w
      | Option.none => if k = x then some v else Option.none

theorem find?_applyPairs (ps : List (String × Val)) (c : Ctx) (x : String) :
    find? (applyPairs ps c) x =
      match lastVal ps x with
      | some w => some w
      | Option.none => find? c x := by
  induction ps generalizing c with
  | nil => simp [applyPairs, lastVal]
  | cons p rest ih =>
      obtain ⟨k, v⟩ := p
      simp only [applyPairs, List.foldl_cons, lastVal]
      rw [show (List.foldl (fun c p => insert c p.1 p.2) (insert c k v) rest)
            = applyPairs rest (insert c k v) from rfl, ih]
      cases lastVal rest x with
      | some w => simp
      | none =>
          simp only [find?_insert]
          by_cases hx : x = k
          · subst hx; simp
          · rw [if_neg hx, if_neg (fun h => hx h.symm)]

theorem lastVal_eq_none {ps : List (String × Val)} {x : String}
    (h : ∀ p ∈ ps, p.1 ≠ x) : lastVal ps x = Option.none := by
  induction ps with
  | nil => rfl
  | cons p rest ih =>
      obtain ⟨k, v⟩ := p
      have hrest := ih (fun q hq => h q (List.mem_cons_of_mem _ hq))
      simp only [lastVal, hrest]
      rw [if_neg (h (k, v) (List.mem_cons_self _ _))]

theorem lastVal_isSome_of_mem_keys {ps : List (String × Val)} {x : String}
    (h : x ∈ ps.map Prod.fst) : (lastVal ps x).isSome = true := by
  induction ps with
  | nil => simp at h
  | cons p rest ih =>
      obtain ⟨k, v⟩ := p
      simp only [List.map_cons, List.mem_cons] at h
      simp only [lastVal]
      cases hres : lastVal rest x with
      | some w => simp
      | none =>
          rcases h with h | h
          · rw [if_pos h.symm]; simp
          · have := ih h
            rw [hres] at this
            simp at this

theorem nodup_keys_applyPairs {c : Ctx} (ps : List (String × Val))
    (h : (keysList c).Nodup) : (keysList (applyPairs ps c)).Nodup := by
  induction ps generalizing c with
  | nil => exact h
  | cons p rest ih => exact ih (nodup_keys_insert p.1 p.2 h)

theorem containsKey_insert_of_contains {c : Ctx} {x : String} (k : String) (v : Val)
    (h : containsKey c x = true) : containsKey (insert c k v) x = true := by
  simp only [containsKey, find?_insert]
  by_cases hx : x = k
  · simp [hx]
  · simp only [if_neg hx]
    simpa [containsKey] using h

theorem keysList_applyPairs_of_subset {ps : List (String × Val)} {c : Ctx}
    (h : ∀ p ∈ ps, containsKey c p.1 = true) :
    keysList (applyPairs ps c) = keysList c := by
  induction ps generalizing c with
  | nil => rfl
  | cons p rest ih =>
      have h1 : containsKey c p.1 = true := h p (List.mem_cons_self _ _)
      have h2 : keysList (applyPairs rest (insert c p.1 p.2)) = keysList (insert c p.1 p.2) :=
        ih (fun q hq =>
          containsKey_insert_of_contains p.1 p.2 (h q (List.mem_cons_of_mem _ hq)))
      calc keysList (applyPairs (p :: rest) c)
          = keysList (insert c p.1 p.2) := h2
        _ = keysList c := keysList_insert_of_contains p.2 h1

theorem find?_applyPairs_not_mem {ps : List (String × Val)} {c : Ctx} {x : String}
    (h : x ∉ ps.map Prod.fst) : find? (applyPairs ps c) x = find? c x := by
  have hn : lastVal ps x = Option.none :=
    lastVal_eq_none (fun p hp hpx => h (hpx ▸ List.mem_map_of_mem _ hp))
  simp [find?_applyPairs, hn]

theorem containsKey_applyPairs (ps : List (String × Val)) (c : Ctx) (x : String) :
    containsKey (applyPairs ps c) x = true ↔
      containsKey c x = true ∨ x ∈ ps.map Prod.fst := by
  by_cases hx : x ∈ ps.map Prod.fst
  · constructor
    · intro _
      exact Or.inr hx
    · intro _
      have hs := lastVal_isSome_of_mem_keys hx
      simp only [containsKey, find?_applyPairs]
      cases hres : lastVal ps x with
      | some w => simp
      | none =>
          rw [hres] at hs
          simp at hs
  · rw [containsKey, find?_applyPairs_not_mem hx]
    simp [containsKey, hx]

theorem ext_of_keys_nodup {c1 c2 : Ctx}
    (hkeys : keysList c1 = keysList c2) (hnd : (keysList c1).Nodup)
    (hfind : ∀ x, find? c1 x = find? c2 x) : c1 = c2 := by
  induction c1 generalizing c2 with
  | nil =>
      cases c2 with
      | nil => rfl
      | cons q t => simp [keysList] at hkeys
  | cons p t1 ih =>
      cases c2 with
      | nil => simp [keysList] at hkeys
      | cons q t2 =>
          obtain ⟨k1, v1⟩ := p
          obtain ⟨k2, v2⟩ := q
          simp only [keysList, List.map_cons, List.cons.injEq] at hkeys
          obtain ⟨hk, htk⟩ := hkeys
          simp only [keysList, List.map_cons, List.nodup_cons] at hnd
          have hv := hfind k1
          rw [find?, if_pos rfl, find?, if_pos hk.symm] at hv
          injection hv with hv
          have ht : t1 = t2 := by
            refine ih htk hnd.2 ?_
            intro x
            by_cases hx : x = k1
            · rw [hx]
              rw [find?_eq_none_of_not_mem_keys hnd.1,
                  find?_eq_none_of_not_mem_keys
                    (show k1 ∉ keysList t2 by
                      simp only [keysList, ← htk]
                      exact hnd.1)]
            · have := hfind x
              rw [find?, if_neg (fun h => hx h.symm), find?,
                  if_neg (fun h => hx (hk ▸ h).symm)] at this
              exact this
          rw [hk, hv, ht]

theorem applyPairs_applyPairs (ps : List (String × Val)) {c : Ctx}
    (h : (keysList c).Nodup) :
    applyPairs ps (applyPairs ps c) = applyPairs ps c := by
  apply ext_of_keys_nodup
  · apply keysList_applyPairs_of_subset
    intro p hp
    exact (containsKey_applyPairs ps c p.1).mpr (Or.inr (List.mem_map_of_mem _ hp))
  · exact nodup_keys_applyPairs ps (nodup_keys_applyPairs ps h)
  · intro x
    cases hres : lastVal ps x with
    | some w => simp [find?_applyPairs, hres]
    | none => simp [find?_applyPairs, hres]

end Ctx

/-! ### Characterizations of the execute phases -/

theorem writeOutputs_of_le :
    ∀ (outs : List OutputSpec) (tup : List Val) (c : Ctx), outs.length ≤ tup.length →
      writeOutputs outs tup c =
        (Ctx.applyPairs ((outs.map OutputSpec.name).zip tup) c, Option.none)
  | [], _, c, _ => rfl
  | _ :: _, [], _, h => by simp at h
  | o :: rest, v :: vs, c, h => by
      simp only [writeOutputs, List.map_cons, List.zip_cons_cons]
      rw [writeOutputs_of_le rest vs (Ctx.insert c o.name v) (by simpa using h)]
      rfl

theorem le_of_writeOutputs_ok :
    ∀ (outs : List OutputSpec) (tup : List Val) (c c' : Ctx),
      writeOutputs outs tup c = (c', Option.none) → outs.length ≤ tup.length
  | [], _, _, _, _ => by simp
  | _ :: _, [], _, _, h => by simp [writeOutputs] at h
  | o :: rest, v :: vs, c, c', h => by
      simp only [writeOutputs] at h
      simpa [Nat.succ_le_succ_iff] using
        le_of_writeOutputs_ok rest vs (Ctx.insert c o.name v) c' h

/-- The assignment pairs the kwargs-collection loop performs, in order. -/
def inputPairs (kind : StepKind) (inputs : List InputSpec) (ctx : Ctx) :
    List (String × Val) :=
  (inputs.filter (fun ia => ia.name ≠ primaryName kind)).map
    (fun ia => (ia.name, Ctx.pythonGet ctx ia.fromKey))

theorem collectKwargs_eq_applyPairs (kind : StepKind) (ctx : Ctx) :
    ∀ (inputs : List InputSpec) (k0 : List (String × Val)),
      collectKwargs kind inputs k0 ctx = Ctx.applyPairs (inputPairs kind inputs ctx) k0
  | [], _ => rfl
  | ia :: rest, k0 => by
      by_cases h : ia.name = primaryName kind
      · simp only [collectKwargs, List.foldl_cons, if_pos h]
        rw [show List.foldl _ k0 rest = collectKwargs kind rest k0 ctx from rfl,
          collectKwargs_eq_applyPairs kind ctx rest k0]
        congr 1
        simp [inputPairs, List.filter_cons, h]
      · simp only [collectKwargs, List.foldl_cons, if_neg h]
        rw [show List.foldl _ (Ctx.insert k0 ia.name (Ctx.pythonGet ctx ia.fromKey)) rest
              = collectKwargs kind rest (Ctx.insert k0 ia.name (Ctx.pythonGet ctx ia.fromKey)) ctx
            from rfl,
          collectKwargs_eq_applyPairs kind ctx rest _]
        have : inputPairs kind (ia :: rest) ctx
            = (ia.name, Ctx.pythonGet ctx ia.fromKey) :: inputPairs kind rest ctx := by
          simp [inputPairs, List.filter_cons, h]
        rw [this]
        rfl

theorem inputPairs_congr {kind : StepKind} {inputs : List InputSpec} {c1 c2 : Ctx}
    (h : ∀ ia ∈ inputs, Ctx.pythonGet c2 ia.fromKey = Ctx.pythonGet c1 ia.fromKey) :
    inputPairs kind inputs c2 = inputPairs kind inputs c1 := by
  unfold inputPairs
  apply List.map_congr_left
  intro ia hia
  rw [h ia (List.mem_of_mem_filter hia)]

theorem keys_inputPairs {kind : StepKind} {inputs : List InputSpec} {ctx : Ctx} {p}
    (hp : p ∈ inputPairs kind inputs ctx) :
    ∃ ia ∈ inputs, ia.name ≠ primaryName kind ∧ p.1 = ia.name := by
  unfold inputPairs at hp
  obtain ⟨ia, hia, rfl⟩ := List.mem_map.mp hp
  exact ⟨ia, List.mem_of_mem_filter hia, by simpa using List.of_mem_filter hia, rfl⟩

theorem exists_input_of_mem_primaryFroms {s : PipelineStep} {f : String}
    (h : f ∈ primaryFroms s) :
    ∃ ia ∈ s.inputs, ia.name = primaryName s.kind ∧ ia.fromKey = f := by
  unfold primaryFroms at h
  obtain ⟨ia, hia, rfl⟩ := List.mem_map.mp h
  exact ⟨ia, List.mem_of_mem_filter hia, by simpa using List.of_mem_filter hia, rfl⟩

theorem firstMissing_eq_none_iff {inputs : List InputSpec} {ctx : Ctx} :
    firstMissing inputs ctx = Option.none ↔
      ∀ ia ∈ inputs, Ctx.containsKey ctx ia.fromKey = true := by
  unfold firstMissing
  rw [List.find?_eq_none]
  constructor
  · intro h ia hia
    have := h ia hia
    simpa using this
  · intro h ia hia
    simp [h ia hia]

theorem zip_take_length {α β : Type} :
    ∀ (l1 : List α) (l2 : List β), l1.zip (l2.take l1.length) = l1.zip l2
  | [], _ => by simp
  | _ :: _, [] => by simp
  | a :: t1, b :: t2 => by
      simp only [List.length_cons, List.take_succ_cons, List.zip_cons_cons]
      rw [zip_take_length t1 t2]

/-- Unfolding of `execute` past the two precondition checks. -/
theorem execute_run {s : PipelineStep} {ctx : Ctx} {f : String}
    (hm : firstMissing s.inputs ctx = Option.none)
    (hf : primaryFroms s = [f]) :
    execute s ctx =
      match runOp s.kind (Ctx.pythonGet ctx f) (collectKwargs s.kind s.inputs s.kwargs ctx) with
      | .error e =>
          ⟨ctx, { s with kwargs := collectKwargs s.kind s.inputs s.kwargs ctx }, [], some e⟩
      | .ok (outputs, calls) =>
          ⟨(writeOutputs s.outputs (toTuple outputs) ctx).1,
           { s with kwargs := collectKwargs s.kind s.inputs s.kwargs ctx }, calls,
           (writeOutputs s.outputs (toTuple outputs) ctx).2⟩ := by
  unfold execute
  rw [hm, hf]

/-- Destructuring of a successful `execute` call: both precondition checks
passed, the operation ran, and the output-writing loop finished without an
`IndexError`. -/
theorem execute_ok_elim {s : PipelineStep} {ctx : Ctx}
    (hok : (execute s ctx).err = Option.none) :
    ∃ f v calls,
      firstMissing s.inputs ctx = Option.none ∧
      primaryFroms s = [f] ∧
      runOp s.kind (Ctx.pythonGet ctx f) (collectKwargs s.kind s.inputs s.kwargs ctx)
        = .ok (v, calls) ∧
      (writeOutputs s.outputs (toTuple v) ctx).2 = Option.none ∧
      execute s ctx =
        ⟨(writeOutputs s.outputs (toTuple v) ctx).1,
         { s with kwargs := collectKwargs s.kind s.inputs s.kwargs ctx }, calls,
         Option.none⟩ := by
  cases hm : firstMissing s.inputs ctx with
  | some ia => simp [execute, hm] at hok
  | none =>
      cases hpf : primaryFroms s with
      | nil => simp [execute, hm, hpf] at hok
      | cons a t =>
          cases t with
          | cons b t2 => simp [execute, hm, hpf] at hok
          | nil =>
              cases hro : runOp s.kind (Ctx.pythonGet ctx a)
                  (collectKwargs s.kind s.inputs s.kwargs ctx) with
              | error e => simp [execute, hm, hpf, hro] at hok
              | ok p =>
                  obtain ⟨v, calls⟩ := p
                  have herr : (writeOutputs s.outputs (toTuple v) ctx).2 = Option.none := by
                    simpa only [execute, hm, hpf, hro] using hok
                  refine ⟨a, v, calls, rfl, rfl, hro, herr, ?_⟩
                  simp only [execute, hm, hpf, hro, herr]

/-! ### The claims -/

/-- C1: for every step (either kind, default or descriptor-built) and every
context, if some declared input's `from` key is absent from the context,
`execute` fails with an `AssertionError` whose message identifies the
missing key, and the context is left unmodified (no key added, removed or
changed); no collaborator call is made and the step is untouched. -/
theorem c1_missing_input_fails_context_unmodified (s : PipelineStep) (ctx : Ctx)
    (h : ∃ ia ∈ s.inputs, Ctx.containsKey ctx ia.fromKey = false) :
    ∃ ia ∈ s.inputs, Ctx.containsKey ctx ia.fromKey = false ∧
      (execute s ctx).err = some (Err.assertionError (missingInputMsg ia.fromKey)) ∧
      (execute s ctx).ctx = ctx ∧ (execute s ctx).calls = [] ∧
      (execute s ctx).step = s := by
  have hs : (firstMissing s.inputs ctx).isSome = true := by
    rw [firstMissing, List.find?_isSome]
    obtain ⟨ia, hia, hfa⟩ := h
    exact ⟨ia, hia, by simp [hfa]⟩
  obtain ⟨ja, hja⟩ := Option.isSome_iff_exists.mp hs
  have hmem : ja ∈ s.inputs := List.mem_of_find?_eq_some hja
  have hpred := List.find?_some hja
  refine ⟨ja, hmem, by simpa using hpred, ?_, ?_, ?_, ?_⟩ <;> simp [execute, hja]

theorem c1_witness :
    (∃ ia ∈ (ItemsGetStep Option.none).inputs,
        Ctx.containsKey [("item_id", Val.str "abc")] ia.fromKey = false) ∧
    (∃ ia ∈ (ItemsGetStep Option.none).inputs,
        Ctx.containsKey [("item_id", Val.str "abc")] ia.fromKey = false ∧
        (execute (ItemsGetStep Option.none) [("item_id", Val.str "abc")]).err
          = some (Err.assertionError (missingInputMsg ia.fromKey)) ∧
        (execute (ItemsGetStep Option.none) [("item_id", Val.str "abc")]).ctx
          = [("item_id", Val.str "abc")] ∧
        (execute (ItemsGetStep Option.none) [("item_id", Val.str "abc")]).calls = [] ∧
        (execute (ItemsGetStep Option.none) [("item_id", Val.str "abc")]).step
          = ItemsGetStep Option.none) :=
  ⟨by decide,
   c1_missing_input_fails_context_unmodified (ItemsGetStep Option.none)
     [("item_id", Val.str "abc")] (by decide)⟩

/-- C3: if every declared input's `from` key is present in the context but
the number of declared inputs named as the step's reserved primary-object
name (`items` resp. `dataset`) is not exactly one, `execute` raises a
`ValueError` before invoking the underlying operation (no collaborator
call) and before mutating the context or the step. -/
theorem c3_ambiguous_primary_raises_valueerror (s : PipelineStep) (ctx : Ctx)
    (hm : ∀ ia ∈ s.inputs, Ctx.containsKey ctx ia.fromKey = true)
    (hn : (s.inputs.filter (fun ia => ia.name = primaryName s.kind)).length ≠ 1) :
    (execute s ctx).err = some (Err.valueError (primaryMissingMsg s.kind)) ∧
    (execute s ctx).ctx = ctx ∧ (execute s ctx).calls = [] ∧
    (execute s ctx).step = s := by
  have hm' : firstMissing s.inputs ctx = Option.none := firstMissing_eq_none_iff.mpr hm
  have hlen : (primaryFroms s).length ≠ 1 := by simpa [primaryFroms] using hn
  cases hpf : primaryFroms s with
  | nil => refine ⟨?_, ?_, ?_, ?_⟩ <;> simp [execute, hm', hpf]
  | cons a t =>
      cases t with
      | nil =>
          rw [hpf] at hlen
          simp at hlen
      | cons b t2 => refine ⟨?_, ?_, ?_, ?_⟩ <;> simp [execute, hm', hpf]

theorem c3_witness :
    (∀ ia ∈ (AnnotationsGetBatchStep (some ⟨[], [], [], []⟩)).inputs,
        Ctx.containsKey ([] : Ctx) ia.fromKey = true) ∧
    ((((AnnotationsGetBatchStep (some ⟨[], [], [], []⟩)).inputs.filter
        (fun ia => ia.name = primaryName
          (AnnotationsGetBatchStep (some ⟨[], [], [], []⟩)).kind)).length ≠ 1) ∧
     ((execute (AnnotationsGetBatchStep (some ⟨[], [], [], []⟩)) []).err
        = some (Err.valueError (primaryMissingMsg
            (AnnotationsGetBatchStep (some ⟨[], [], [], []⟩)).kind)) ∧
      (execute (AnnotationsGetBatchStep (some ⟨[], [], [], []⟩)) []).ctx = [] ∧
      (execute (AnnotationsGetBatchStep (some ⟨[], [], [], []⟩)) []).calls = [] ∧
      (execute (AnnotationsGetBatchStep (some ⟨[], [], [], []⟩)) []).step
        = AnnotationsGetBatchStep (some ⟨[], [], [], []⟩))) :=
  ⟨by decide, by decide,
   c3_ambiguous_primary_raises_valueerror _ _ (by decide) (by decide)⟩

/-- C4: for a context mapping `items` to the two-element list
`[item1, item2]`, executing `AnnotationsGetBatchStep` built with no
descriptor succeeds and extends the context with the key `annotations`
bound to `[item1.annotations.list(), item2.annotations.list()]`, in that
order. -/
theorem c4_annotations_batch_default_scenario (item1 item2 : Val) :
    (execute (AnnotationsGetBatchStep Option.none)
        [("items", Val.list [item1, item2])]).err = Option.none ∧
    (execute (AnnotationsGetBatchStep Option.none)
        [("items", Val.list [item1, item2])]).ctx
      = [("items", Val.list [item1, item2]),
         ("annotations",
          Val.list [Val.annotationsList item1, Val.annotationsList item2])] :=
  ⟨rfl, rfl⟩

/-- C5: for a context mapping `dataset` to `ds` and `item_id` to `"abc"`,
executing `ItemsGetStep` built with no descriptor succeeds and extends the
context with the key `item` bound to `ds.items.get(item_id="abc")`; a
context missing the `dataset` key instead fails with a missing-input
`AssertionError` referencing `dataset` and leaves the context unchanged. -/
theorem c5_items_get_default_scenarios (ds : Val) :
    ((execute (ItemsGetStep Option.none)
        [("dataset", ds), ("item_id", Val.str "abc")]).err = Option.none ∧
     (execute (ItemsGetStep Option.none)
        [("dataset", ds), ("item_id", Val.str "abc")]).ctx
       = [("dataset", ds), ("item_id", Val.str "abc"),
          ("item", Val.itemsGet ds (KwList.ofKw [("item_id", Val.str "abc")]))]) ∧
    ((execute (ItemsGetStep Option.none) [("item_id", Val.str "abc")]).err
        = some (Err.assertionError (missingInputMsg "dataset")) ∧
     (execute (ItemsGetStep Option.none) [("item_id", Val.str "abc")]).ctx
        = [("item_id", Val.str "abc")]) :=
  ⟨⟨rfl, rfl⟩, ⟨rfl, rfl⟩⟩

/-- C6 (counterexample): the claim that after `execute` returns the step's
own fields equal their values before the call fails on the code: the
kwargs-collection loop writes through the alias `kwargs = self.kwargs`, so
after a default `ItemsGetStep` executes, its `kwargs` field has gained the
`item_id` entry and differs from the empty dict it held before the call. -/
theorem c6_counterexample_kwargs_mutated :
    ¬ ((execute (ItemsGetStep Option.none)
          [("dataset", Val.dataset 1), ("item_id", Val.str "abc")]).step.kwargs
        = (ItemsGetStep Option.none).kwargs) := by
  decide

/-- C6 (amended): `execute` never changes the step's `name`, `kind`,
`inputs`, `args` or `outputs` fields; its `kwargs` field is left unchanged
exactly when one of the two precondition checks fails first, and whenever
both precondition checks pass (every `from` key present and exactly one
primary-named input) `self.kwargs` becomes the collected kwargs mapping —
the step's own kwargs dict updated with the non-primary input bindings —
and this accumulation persists after `execute` returns (it is not confined
to the call). -/
theorem c6_amended_fields_stable_kwargs_accumulate (s : PipelineStep) (ctx : Ctx) :
    (execute s ctx).step.name = s.name ∧
    (execute s ctx).step.kind = s.kind ∧
    (execute s ctx).step.inputs = s.inputs ∧
    (execute s ctx).step.args = s.args ∧
    (execute s ctx).step.outputs = s.outputs ∧
    (firstMissing s.inputs ctx = Option.none ∧ (primaryFroms s).length = 1 →
      (execute s ctx).step.kwargs = collectKwargs s.kind s.inputs s.kwargs ctx) ∧
    (¬ (firstMissing s.inputs ctx = Option.none ∧ (primaryFroms s).length = 1) →
      (execute s ctx).step.kwargs = s.kwargs) := by
  cases hm : firstMissing s.inputs ctx with
  | some ia => refine ⟨?_, ?_, ?_, ?_, ?_, ?_, ?_⟩ <;> simp [execute, hm]
  | none =>
      cases hpf : primaryFroms s with
      | nil => refine ⟨?_, ?_, ?_, ?_, ?_, ?_, ?_⟩ <;> simp [execute, hm, hpf]
      | cons a t =>
          cases t with
          | cons b t2 => refine ⟨?_, ?_, ?_, ?_, ?_, ?_, ?_⟩ <;> simp [execute, hm, hpf]
          | nil =>
              cases hro : runOp s.kind (Ctx.pythonGet ctx a)
                  (collectKwargs s.kind s.inputs s.kwargs ctx) with
              | error e =>
                  refine ⟨?_, ?_, ?_, ?_, ?_, ?_, ?_⟩ <;> simp [execute, hm, hpf, hro]
              | ok p =>
                  obtain ⟨v, calls⟩ := p
                  refine ⟨?_, ?_, ?_, ?_, ?_, ?_, ?_⟩ <;> simp [execute, hm, hpf, hro]

theorem c6_amended_witness :
    (firstMissing (ItemsGetStep Option.none).inputs
        [("dataset", Val.dataset 1), ("item_id", Val.str "abc")] = Option.none ∧
     (primaryFroms (ItemsGetStep Option.none)).length = 1) ∧
    ((execute (ItemsGetStep Option.none)
        [("dataset", Val.dataset 1), ("item_id", Val.str "abc")]).step.name
      = (ItemsGetStep Option.none).name ∧
     (execute (ItemsGetStep Option.none)
        [("dataset", Val.dataset 1), ("item_id", Val.str "abc")]).step.kind
      = (ItemsGetStep Option.none).kind ∧
     (execute (ItemsGetStep Option.none)
        [("dataset", Val.dataset 1), ("item_id", Val.str "abc")]).step.inputs
      = (ItemsGetStep Option.none).inputs ∧
     (execute (ItemsGetStep Option.none)
        [("dataset", Val.dataset 1), ("item_id", Val.str "abc")]).step.args
      = (ItemsGetStep Option.none).args ∧
     (execute (ItemsGetStep Option.none)
        [("dataset", Val.dataset 1), ("item_id", Val.str "abc")]).step.outputs
      = (ItemsGetStep Option.none).outputs ∧
     (firstMissing (ItemsGetStep Option.none).inputs
          [("dataset", Val.dataset 1), ("item_id", Val.str "abc")] = Option.none ∧
        (primaryFroms (ItemsGetStep Option.none)).length = 1 →
      (execute (ItemsGetStep Option.none)
          [("dataset", Val.dataset 1), ("item_id", Val.str "abc")]).step.kwargs
        = collectKwargs (ItemsGetStep Option.none).kind (ItemsGetStep Option.none).inputs
            (ItemsGetStep Option.none).kwargs
            [("dataset", Val.dataset 1), ("item_id", Val.str "abc")]) ∧
     (¬ (firstMissing (ItemsGetStep Option.none).inputs
          [("dataset", Val.dataset 1), ("item_id", Val.str "abc")] = Option.none ∧
        (primaryFroms (ItemsGetStep Option.none)).length = 1) →
      (execute (ItemsGetStep Option.none)
          [("dataset", Val.dataset 1), ("item_id", Val.str "abc")]).step.kwargs
        = (ItemsGetStep Option.none).kwargs)) :=
  ⟨⟨by decide, by decide⟩,
   c6_amended_fields_stable_kwargs_accumulate (ItemsGetStep Option.none)
     [("dataset", Val.dataset 1), ("item_id", Val.str "abc")]⟩

/-- C2: a successful `execute` writes exactly the declared output keys into
the context: the final context is the initial one updated, in declaration
order, at the declared output names (so exactly those keys are added when
absent), and no other key of the context is changed. -/
theorem c2_success_writes_declared_outputs (s : PipelineStep) (ctx : Ctx)
    (h : (execute s ctx).err = Option.none) :
    (∃ vs : List Val, vs.length = s.outputs.length ∧
        (execute s ctx).ctx
          = Ctx.applyPairs ((s.outputs.map OutputSpec.name).zip vs) ctx) ∧
    (∀ k, k ∉ s.outputs.map OutputSpec.name →
        Ctx.find? (execute s ctx).ctx k = Ctx.find? ctx k) ∧
    (∀ k, Ctx.containsKey (execute s ctx).ctx k = true ↔
        (Ctx.containsKey ctx k = true ∨ k ∈ s.outputs.map OutputSpec.name)) := by
  obtain ⟨f, v, calls, hm, hf, hro, herr, hex⟩ := execute_ok_elim h
  have hwpair : writeOutputs s.outputs (toTuple v) ctx
      = ((writeOutputs s.outputs (toTuple v) ctx).1, Option.none) := by
    rw [← herr]
  have hlen : s.outputs.length ≤ (toTuple v).length :=
    le_of_writeOutputs_ok s.outputs (toTuple v) ctx _ hwpair
  have hwo := writeOutputs_of_le s.outputs (toTuple v) ctx hlen
  have hctx1 : (execute s ctx).ctx
      = Ctx.applyPairs ((s.outputs.map OutputSpec.name).zip (toTuple v)) ctx := by
    simp only [hex, hwo]
  have hnames : (s.outputs.map OutputSpec.name).length = s.outputs.length :=
    List.length_map _ _
  have hnames_len : (s.outputs.map OutputSpec.name).length ≤ (toTuple v).length := by
    rw [hnames]; exact hlen
  refine ⟨⟨(toTuple v).take s.outputs.length, ?_, ?_⟩, ?_, ?_⟩
  · simp [List.length_take, Nat.min_eq_left hlen]
  · rw [hctx1]
    rw [← hnames, zip_take_length]
  · intro k hk
    rw [hctx1]
    apply Ctx.find?_applyPairs_not_mem
    rw [List.map_fst_zip _ _ hnames_len]
    exact hk
  · intro k
    rw [hctx1, Ctx.containsKey_applyPairs, List.map_fst_zip _ _ hnames_len]

theorem c2_witness :
    ((execute (AnnotationsGetBatchStep Option.none)
        [("items", Val.list [Val.item 1])]).err = Option.none) ∧
    ((∃ vs : List Val,
        vs.length = (AnnotationsGetBatchStep Option.none).outputs.length ∧
        (execute (AnnotationsGetBatchStep Option.none)
            [("items", Val.list [Val.item 1])]).ctx
          = Ctx.applyPairs
              (((AnnotationsGetBatchStep Option.none).outputs.map OutputSpec.name).zip vs)
              [("items", Val.list [Val.item 1])]) ∧
     (∀ k, k ∉ (AnnotationsGetBatchStep Option.none).outputs.map OutputSpec.name →
        Ctx.find? (execute (AnnotationsGetBatchStep Option.none)
            [("items", Val.list [Val.item 1])]).ctx k
          = Ctx.find? [("items", Val.list [Val.item 1])] k) ∧
     (∀ k, Ctx.containsKey (execute (AnnotationsGetBatchStep Option.none)
            [("items", Val.list [Val.item 1])]).ctx k = true ↔
        (Ctx.containsKey [("items", Val.list [Val.item 1])] k = true ∨
         k ∈ (AnnotationsGetBatchStep Option.none).outputs.map OutputSpec.name))) :=
  ⟨rfl,
   c2_success_writes_declared_outputs (AnnotationsGetBatchStep Option.none)
     [("items", Val.list [Val.item 1])] rfl⟩

/-- The descriptor-built annotations step used to refute C7: it declares a
second, non-primary input `extra` read from context key `x`. -/
def c7Step : PipelineStep :=
  AnnotationsGetBatchStep (some
    ⟨[⟨"items", "items", "ref", "object"⟩, ⟨"extra", "x", "ref", "object"⟩],
     [], [], [⟨"annotations", "list"⟩]⟩)

/-- A context satisfying `c7Step`'s preconditions. -/
def c7Ctx : Ctx := [("items", Val.list [Val.item 1]), ("x", Val.str "v")]

/-- C7 (counterexample): the claim that every collaborator call receives
the keyword arguments collected from the non-primary declared inputs fails
for `AnnotationsGetBatchStep`: the code collects `kwargs` but then invokes
`item.annotations.list()` with no arguments, so the call's kwargs lack the
collected `extra` binding. -/
theorem c7_counterexample_annotations_ignore_kwargs :
    ¬ (∀ c ∈ (execute c7Step c7Ctx).calls, ∀ ia ∈ c7Step.inputs,
          ia.name ≠ primaryName c7Step.kind →
          Ctx.find? (OpCall.callKwargs c) ia.name
            = some (Ctx.pythonGet c7Ctx ia.fromKey)) := by
  decide

/-- C7 (amended): when both precondition checks pass, `ItemsGetStep`
invokes its collaborator once, on the primary object with exactly the
collected keyword arguments; `AnnotationsGetBatchStep` instead invokes
`item.annotations.list()` once per element of the primary iterable, each
time with an empty keyword-argument mapping — the collected kwargs are
discarded. -/
theorem c7_amended_collaborator_calls (s : PipelineStep) (ctx : Ctx) (f : String)
    (hm : firstMissing s.inputs ctx = Option.none)
    (hf : primaryFroms s = [f]) :
    (s.kind = StepKind.itemsGet →
      (execute s ctx).calls
        = [OpCall.itemsGet (Ctx.pythonGet ctx f)
            (collectKwargs s.kind s.inputs s.kwargs ctx)]) ∧
    (∀ items, s.kind = StepKind.annotationsGetBatch →
      pyIter (Ctx.pythonGet ctx f) = some items →
      (execute s ctx).calls
        = items.map (fun it => OpCall.annotationsList it [])) ∧
    (∀ c ∈ (execute s ctx).calls, s.kind = StepKind.annotationsGetBatch →
      OpCall.callKwargs c = []) := by
  rw [execute_run hm hf]
  cases hk : s.kind with
  | itemsGet =>
      refine ⟨fun _ => ?_, fun items hcontra _ => StepKind.noConfusion hcontra, ?_⟩
      · simp [runOp]
      · intro c hc hcontra
        exact StepKind.noConfusion hcontra
  | annotationsGetBatch =>
      cases hpi : pyIter (Ctx.pythonGet ctx f) with
      | none =>
          refine ⟨fun hcontra => StepKind.noConfusion hcontra, ?_, ?_⟩
          · intro items _ hpi2
            exact Option.noConfusion hpi2
          · intro c hc _
            simp [runOp, hpi] at hc
      | some items =>
          refine ⟨fun hcontra => StepKind.noConfusion hcontra, ?_, ?_⟩
          · intro items2 _ hpi2
            injection hpi2 with hpi2
            subst hpi2
            simp [runOp, hpi]
          · intro c hc _
            simp only [runOp, hpi] at hc
            obtain ⟨it, _, rfl⟩ := List.mem_map.mp (by simpa using hc)
            rfl

theorem c7_amended_witness :
    (firstMissing c7Step.inputs c7Ctx = Option.none) ∧
    (primaryFroms c7Step = ["items"]) ∧
    ((c7Step.kind = StepKind.itemsGet →
      (execute c7Step c7Ctx).calls
        = [OpCall.itemsGet (Ctx.pythonGet c7Ctx "items")
            (collectKwargs c7Step.kind c7Step.inputs c7Step.kwargs c7Ctx)]) ∧
     (∀ items, c7Step.kind = StepKind.annotationsGetBatch →
      pyIter (Ctx.pythonGet c7Ctx "items") = some items →
      (execute c7Step c7Ctx).calls
        = items.map (fun it => OpCall.annotationsList it [])) ∧
     (∀ c ∈ (execute c7Step c7Ctx).calls,
        c7Step.kind = StepKind.annotationsGetBatch → OpCall.callKwargs c = [])) :=
  ⟨by decide, by decide,
   c7_amended_collaborator_calls c7Step c7Ctx "items" (by decide) (by decide)⟩

/-- The collaborator operations referenced by the two step kinds: the
operations the `execute` methods invoke and the operations the
`get_arguments` methods introspect. -/
inductive CollabOp where
  /-- `repositories.Annotations.list` — invoked per item by
  `AnnotationsGetBatchStep.execute` (as `item.annotations.list()`). -/
  | annotationsListOp
  /-- `repositories.Annotations.get` — introspected by
  `AnnotationsGetBatchStep.get_arguments`. -/
  | annotationsGetOp
  /-- `repositories.Items.get` — invoked by `ItemsGetStep.execute` (as
  `dataset.items.get(**kwargs)`) and introspected by
  `ItemsGetStep.get_arguments`. -/
  | itemsGetOp
  deriving DecidableEq, Repr

/-- Modelled from the spec: the Python signatures of the collaborator
operations (`repositories.Annotations.get`, `repositories.Annotations.list`,
`repositories.Items.get`) are not part of the excerpted source, so a
signature is modelled abstractly as the ordered list of parameter names,
with `some default` for an optional parameter and `Option.none`
(`inspect.Parameter.empty`) for a required one; the theorems quantify over
the assignment of signatures to operations. -/
abbrev Signature := List (String × Option Val)

/-- The operation whose signature each step kind's `get_arguments`
introspects: `inspect.signature(repositories.Annotations.get)` in
`annotations_get_batch_step.py`, `inspect.signature(repositories.Items.get)`
in `items_get_step.py`. -/
def inspectedOp : StepKind → CollabOp
  | .annotationsGetBatch => .annotationsGetOp
  | .itemsGet => .itemsGetOp

/-- The operation each step kind's `execute` actually invokes. -/
def underlyingOp : StepKind → CollabOp
  | .annotationsGetBatch => .annotationsListOp
  | .itemsGet => .itemsGetOp

/-- The dict comprehension of `get_arguments`:
`{k: v.default for k, v in signature.parameters.items() if v.default is not
inspect.Parameter.empty}`. -/
def optionalDefaults (sig : Signature) : List (String × Val) :=
  sig.filterMap (fun p => p.2.map (fun d => (p.1, d)))

/-- `get_arguments` of a step kind, parametric in the signature
assignment: the optional-parameter defaults of the inspected operation. -/
def get_arguments (sigs : CollabOp → Signature) (kind : StepKind) :
    List (String × Val) :=
  optionalDefaults (sigs (inspectedOp kind))

/-- A signature assignment distinguishing `Annotations.get` from
`Annotations.list` (the two differ in the SDK: `get` takes an annotation
id, `list` takes none of its parameters). -/
def c9Sigs : CollabOp → Signature
  | .annotationsGetOp => [("annotation_id", Option.none), ("page_offset", some (Val.nat 0))]
  | .annotationsListOp => []
  | .itemsGetOp => [("item_id", some Val.none), ("filepath", some Val.none)]

/-- C9 (counterexample): the claim that `get_arguments` reports the
optional-parameter defaults of the operation invoked by `execute` fails for
`AnnotationsGetBatchStep`: its `execute` invokes `annotations.list()` while
its `get_arguments` introspects `repositories.Annotations.get`, so under a
signature assignment that distinguishes the two operations the reported
mapping is not the underlying operation's. -/
theorem c9_counterexample_inspects_get_not_list :
    ¬ (get_arguments c9Sigs StepKind.annotationsGetBatch
        = optionalDefaults (c9Sigs (underlyingOp StepKind.annotationsGetBatch))) := by
  decide

/-- C9 (amended): `get_arguments` returns, without executing the step, the
mapping of optional-parameter names to defaults of an *inspected*
operation: for `ItemsGetStep` that operation is `Items.get`, the very
operation `execute` invokes, but for `AnnotationsGetBatchStep` it is
`Annotations.get` although `execute` invokes `Annotations.list`; and
`optionalDefaults` keeps exactly the parameters that carry a default. -/
theorem c9_amended_get_arguments (sigs : CollabOp → Signature) :
    get_arguments sigs StepKind.itemsGet
      = optionalDefaults (sigs (underlyingOp StepKind.itemsGet)) ∧
    get_arguments sigs StepKind.annotationsGetBatch
      = optionalDefaults (sigs CollabOp.annotationsGetOp) ∧
    underlyingOp StepKind.annotationsGetBatch = CollabOp.annotationsListOp ∧
    (∀ (sig : Signature) (n : String) (v : Val),
        (n, v) ∈ optionalDefaults sig ↔ (n, some v) ∈ sig) := by
  refine ⟨rfl, rfl, rfl, ?_⟩
  intro sig n v
  simp only [optionalDefaults, List.mem_filterMap]
  constructor
  · rintro ⟨⟨m, d⟩, hmem, hmap⟩
    cases d with
    | none => simp at hmap
    | some dd =>
        simp only [Option.map_some'] at hmap
        injection hmap with hmap
        rw [Prod.mk.injEq] at hmap
        obtain ⟨rfl, rfl⟩ := hmap
        exact hmem
  · intro h
    exact ⟨(n, some v), h, rfl⟩

/-- C10: for every step with at least two declared outputs whose
precondition checks pass and whose underlying operation succeeds with a
non-tuple result, `execute` raises an `IndexError`, but only after having
written the first declared output key: the final context is the initial one
with exactly that one key written, so the failure is not atomic. -/
theorem c10_arity_failure_partial_write (s : PipelineStep) (ctx : Ctx)
    (o1 o2 : OutputSpec) (rest : List OutputSpec) (f : String) (v : Val)
    (calls : List OpCall)
    (houts : s.outputs = o1 :: o2 :: rest)
    (hm : firstMissing s.inputs ctx = Option.none)
    (hf : primaryFroms s = [f])
    (hro : runOp s.kind (Ctx.pythonGet ctx f)
        (collectKwargs s.kind s.inputs s.kwargs ctx) = .ok (v, calls))
    (hnt : Val.isTuple v = false) :
    (execute s ctx).err = some Err.indexError ∧
    (execute s ctx).ctx = Ctx.insert ctx o1.name v := by
  have ht : toTuple v = [v] := by
    cases v <;> first | rfl | simp [Val.isTuple] at hnt
  rw [execute_run hm hf, hro]
  simp [houts, ht, writeOutputs]

/-- The two-output items step used to witness C10. -/
def c10Step : PipelineStep :=
  ItemsGetStep (some
    ⟨[⟨"dataset", "dataset", "ref", "object"⟩,
      ⟨"item_id", "item_id", "ref", "string"⟩],
     [], [], [⟨"item", "object"⟩, ⟨"extra", "object"⟩]⟩)

/-- Scenario-B context used to witness C10. -/
def c10Ctx : Ctx := [("dataset", Val.dataset 1), ("item_id", Val.str "abc")]

theorem c10_witness :
    (c10Step.outputs
        = ⟨"item", "object"⟩ :: ⟨"extra", "object"⟩ :: ([] : List OutputSpec)) ∧
    (firstMissing c10Step.inputs c10Ctx = Option.none) ∧
    (primaryFroms c10Step = ["dataset"]) ∧
    (runOp c10Step.kind (Ctx.pythonGet c10Ctx "dataset")
        (collectKwargs c10Step.kind c10Step.inputs c10Step.kwargs c10Ctx)
      = .ok (Val.itemsGet (Val.dataset 1) (KwList.ofKw [("item_id", Val.str "abc")]),
             [OpCall.itemsGet (Val.dataset 1) [("item_id", Val.str "abc")]])) ∧
    (Val.isTuple (Val.itemsGet (Val.dataset 1)
        (KwList.ofKw [("item_id", Val.str "abc")])) = false) ∧
    ((execute c10Step c10Ctx).err = some Err.indexError ∧
     (execute c10Step c10Ctx).ctx
       = Ctx.insert c10Ctx "item"
           (Val.itemsGet (Val.dataset 1) (KwList.ofKw [("item_id", Val.str "abc")]))) :=
  ⟨rfl, by decide, by decide, rfl, by decide,
   c10_arity_failure_partial_write c10Step c10Ctx
     ⟨"item", "object"⟩ ⟨"extra", "object"⟩ [] "dataset"
     (Val.itemsGet (Val.dataset 1) (KwList.ofKw [("item_id", Val.str "abc")]))
     [OpCall.itemsGet (Val.dataset 1) [("item_id", Val.str "abc")]]
     rfl (by decide) (by decide) rfl (by decide)⟩

/-- The items step used to refute C8: its `item_id` input is read from the
context key `item`, which is also its declared output key, so a second run
reads back the first run's output. -/
def c8Step : PipelineStep :=
  ItemsGetStep (some
    ⟨[⟨"dataset", "dataset", "ref", "object"⟩,
      ⟨"item_id", "item", "ref", "string"⟩],
     [], [], [⟨"item", "object"⟩]⟩)

/-- A context for `c8Step` that already contains the declared output key
`item`. -/
def c8Ctx : Ctx := [("dataset", Val.dataset 1), ("item", Val.str "a")]

/-- C8 (counterexample): re-execution is not idempotent for every step and
context containing the output keys: with an output key that is also an
input's `from` key, the second run collects the first run's output as a
keyword argument, computes a different result, and leaves a different
context. -/
theorem c8_counterexample_feedback_breaks_idempotence :
    ¬ ((execute (execute c8Step c8Ctx).step (execute c8Step c8Ctx).ctx).ctx
        = (execute c8Step c8Ctx).ctx) := by
  decide

/-- C8 (amended): idempotence of re-execution holds whenever the declared
output names are disjoint from the declared inputs' `from` keys (and the
context and the step's kwargs are well-formed dicts, i.e. have
duplicate-free keys): after a successful run, running the same (mutated)
step object again on the resulting context succeeds and overwrites the
output keys with identical freshly computed values, leaving the context
exactly unchanged — no accumulation, no duplication. -/
theorem c8_amended_idempotent_when_outputs_fresh (s : PipelineStep) (ctx : Ctx)
    (hndc : (Ctx.keysList ctx).Nodup)
    (hndk : (Ctx.keysList s.kwargs).Nodup)
    (hdisj : ∀ o ∈ s.outputs, ∀ ia ∈ s.inputs, o.name ≠ ia.fromKey)
    (hok : (execute s ctx).err = Option.none) :
    (execute (execute s ctx).step (execute s ctx).ctx).ctx = (execute s ctx).ctx ∧
    (execute (execute s ctx).step (execute s ctx).ctx).err = Option.none := by
  obtain ⟨f, v, calls, hm, hf, hro, herr, hex⟩ := execute_ok_elim hok
  have hwpair : writeOutputs s.outputs (toTuple v) ctx
      = ((writeOutputs s.outputs (toTuple v) ctx).1, Option.none) := by
    rw [← herr]
  have hlen : s.outputs.length ≤ (toTuple v).length :=
    le_of_writeOutputs_ok _ _ _ _ hwpair
  have hwo := writeOutputs_of_le s.outputs (toTuple v) ctx hlen
  have hnames_len : (s.outputs.map OutputSpec.name).length ≤ (toTuple v).length := by
    rw [List.length_map]
    exact hlen
  have hfromkeys : ∀ ia ∈ s.inputs,
      Ctx.find? (Ctx.applyPairs ((s.outputs.map OutputSpec.name).zip (toTuple v)) ctx)
          ia.fromKey
        = Ctx.find? ctx ia.fromKey := by
    intro ia hia
    apply Ctx.find?_applyPairs_not_mem
    rw [List.map_fst_zip _ _ hnames_len]
    intro hmem
    obtain ⟨o, ho, hoe⟩ := List.mem_map.mp hmem
    exact hdisj o ho ia hia hoe
  have hget : ∀ ia ∈ s.inputs,
      Ctx.pythonGet (Ctx.applyPairs ((s.outputs.map OutputSpec.name).zip (toTuple v)) ctx)
          ia.fromKey
        = Ctx.pythonGet ctx ia.fromKey := by
    intro ia hia
    simp only [Ctx.pythonGet, hfromkeys ia hia]
  have hm1 : firstMissing
      ({ s with kwargs := collectKwargs s.kind s.inputs s.kwargs ctx } : PipelineStep).inputs
      (Ctx.applyPairs ((s.outputs.map OutputSpec.name).zip (toTuple v)) ctx)
        = Option.none := by
    rw [firstMissing_eq_none_iff]
    intro ia hia
    have h0 := firstMissing_eq_none_iff.mp hm ia hia
    simp only [Ctx.containsKey] at h0 ⊢
    rw [hfromkeys ia hia]
    exact h0
  have hf1 : primaryFroms
      ({ s with kwargs := collectKwargs s.kind s.inputs s.kwargs ctx } : PipelineStep) = [f] :=
    hf
  have hgetf : Ctx.pythonGet
      (Ctx.applyPairs ((s.outputs.map OutputSpec.name).zip (toTuple v)) ctx) f
        = Ctx.pythonGet ctx f := by
    obtain ⟨ia, hia, _, hfa⟩ :=
      exists_input_of_mem_primaryFroms (s := s) (f := f)
        (by rw [hf]; exact List.mem_singleton_self f)
    rw [← hfa]
    exact hget ia hia
  have hkw : collectKwargs s.kind s.inputs (collectKwargs s.kind s.inputs s.kwargs ctx)
      (Ctx.applyPairs ((s.outputs.map OutputSpec.name).zip (toTuple v)) ctx)
        = collectKwargs s.kind s.inputs s.kwargs ctx := by
    rw [collectKwargs_eq_applyPairs s.kind _ s.inputs,
        collectKwargs_eq_applyPairs s.kind ctx s.inputs,
        inputPairs_congr (fun ia hia => hget ia hia)]
    exact Ctx.applyPairs_applyPairs _ hndk
  have hro2 : runOp
      ({ s with kwargs := collectKwargs s.kind s.inputs s.kwargs ctx } : PipelineStep).kind
      (Ctx.pythonGet
        (Ctx.applyPairs ((s.outputs.map OutputSpec.name).zip (toTuple v)) ctx) f)
      (collectKwargs
        ({ s with kwargs := collectKwargs s.kind s.inputs s.kwargs ctx } : PipelineStep).kind
        ({ s with kwargs := collectKwargs s.kind s.inputs s.kwargs ctx } : PipelineStep).inputs
        ({ s with kwargs := collectKwargs s.kind s.inputs s.kwargs ctx } : PipelineStep).kwargs
        (Ctx.applyPairs ((s.outputs.map OutputSpec.name).zip (toTuple v)) ctx))
        = .ok (v, calls) := by
    show runOp s.kind _ (collectKwargs s.kind s.inputs
        (collectKwargs s.kind s.inputs s.kwargs ctx) _) = _
    rw [hgetf, hkw]
    exact hro
  have hwo1 := writeOutputs_of_le s.outputs (toTuple v)
    (Ctx.applyPairs ((s.outputs.map OutputSpec.name).zip (toTuple v)) ctx) hlen
  have hdd : Ctx.applyPairs ((s.outputs.map OutputSpec.name).zip (toTuple v))
      (Ctx.applyPairs ((s.outputs.map OutputSpec.name).zip (toTuple v)) ctx)
        = Ctx.applyPairs ((s.outputs.map OutputSpec.name).zip (toTuple v)) ctx :=
    Ctx.applyPairs_applyPairs _ hndc
  simp only [hex, hwo]
  rw [execute_run hm1 hf1, hro2]
  simp [hwo1, hdd]

theorem c8_amended_witness :
    ((Ctx.keysList [("dataset", Val.dataset 1), ("item_id", Val.str "abc")]).Nodup) ∧
    ((Ctx.keysList (ItemsGetStep Option.none).kwargs).Nodup) ∧
    (∀ o ∈ (ItemsGetStep Option.none).outputs, ∀ ia ∈ (ItemsGetStep Option.none).inputs,
        o.name ≠ ia.fromKey) ∧
    ((execute (ItemsGetStep Option.none)
        [("dataset", Val.dataset 1), ("item_id", Val.str "abc")]).err = Option.none) ∧
    ((execute (execute (ItemsGetStep Option.none)
          [("dataset", Val.dataset 1), ("item_id", Val.str "abc")]).step
        (execute (ItemsGetStep Option.none)
          [("dataset", Val.dataset 1), ("item_id", Val.str "abc")]).ctx).ctx
      = (execute (ItemsGetStep Option.none)
          [("dataset", Val.dataset 1), ("item_id", Val.str "abc")]).ctx ∧
     (execute (execute (ItemsGetStep Option.none)
          [("dataset", Val.dataset 1), ("item_id", Val.str "abc")]).step
        (execute (ItemsGetStep Option.none)
          [("dataset", Val.dataset 1), ("item_id", Val.str "abc")]).ctx).err
       = Option.none) :=
  ⟨by decide, by decide, by decide, rfl,
   c8_amended_idempotent_when_outputs_fresh (ItemsGetStep Option.none)
     [("dataset", Val.dataset 1), ("item_id", Val.str "abc")]
     (by decide) (by decide) (by decide) rfl⟩

end Dtlpy
